import Mathlib

/-!
# Verification of the `raytracer-toy` ray tracer

Shallow embedding of the repository's core numeric code, translated from
`src/util.rs`, `src/hit.rs`, `src/ray.rs` and `src/main.rs`.  Rust `f64`
arithmetic is modelled by the real numbers `ℝ` (exact arithmetic, no
rounding); `f64::sqrt` becomes `Real.sqrt`.  Rust's `Option` maps to Lean's
`Option`.  The opaque shared material pointer `Rc<dyn Material>` is modelled
by a type parameter `μ`: geometry stores a value of type `μ` and the
intersection code only ever copies it around, which is exactly what the
source does with the `Rc`.
-/

namespace Tracer

noncomputable section

/-- 3-component vector, from `Vec3 = Vector3<f64>` in `src/util.rs`
(aliased `Point3` and `Color` by context). -/
structure Vec3 where
  x : ℝ
  y : ℝ
  z : ℝ

/-- Componentwise vector addition. -/
def addV (a b : Vec3) : Vec3 := ⟨a.x + b.x, a.y + b.y, a.z + b.z⟩

/-- Componentwise vector subtraction. -/
def subV (a b : Vec3) : Vec3 := ⟨a.x - b.x, a.y - b.y, a.z - b.z⟩

/-- Componentwise negation. -/
def negV (a : Vec3) : Vec3 := ⟨-a.x, -a.y, -a.z⟩

/-- Scalar multiplication. -/
def smulV (k : ℝ) (a : Vec3) : Vec3 := ⟨k * a.x, k * a.y, k * a.z⟩

/-- Division of a vector by a scalar, `v / k` in the source. -/
def divV (a : Vec3) (k : ℝ) : Vec3 := ⟨a.x / k, a.y / k, a.z / k⟩

/-- Dot product, `Vector3::dot`. -/
def dotV (a b : Vec3) : ℝ := a.x * b.x + a.y * b.y + a.z * b.z

/-- `length_squared` from `src/util.rs`: `v.dot(v)`. -/
def length_squared (v : Vec3) : ℝ := dotV v v

/-- `length` from `src/util.rs`: `length_squared(v).sqrt()`. -/
def length (v : Vec3) : ℝ := Real.sqrt (length_squared v)

/-- `unit_vector` from `src/util.rs` (line 28-30): `v / length(v)`.
There is no zero-length check in the source; the division is unconditional. -/
def unit_vector (v : Vec3) : Vec3 := divV v (length v)

/-- `component_mult` from `src/util.rs`. -/
def component_mult (a b : Vec3) : Vec3 := ⟨a.x * b.x, a.y * b.y, a.z * b.z⟩

/-- `near_zero` from `src/util.rs` (line 43-45):
`v.x < 1e-8 && v.y < 1e-8 && v.z < 1e-8`.
Note the source compares the signed components, not their absolute values. -/
def near_zero (v : Vec3) : Prop :=
  v.x < 1e-8 ∧ v.y < 1e-8 ∧ v.z < 1e-8

/-- `reflect` from `src/util.rs` (line 53-55): `v - 2.0 * v.dot(&normal) * normal`. -/
def reflect (v normal : Vec3) : Vec3 :=
  subV v (smulV (2 * dotV v normal) normal)

/-- Rust's saturating float-to-`u8` cast `x as u8` (used in `set_pixel`):
truncate toward zero, clamping to `[0, 255]`; on `[0, ∞)` truncation agrees
with `Int.floor`, and for negative inputs both truncation-then-clamp and
floor-then-clamp give `0`. -/
def f64_as_u8 (x : ℝ) : ℕ := (min 255 ⌊x⌋).toNat

/-- One channel of `set_pixel` from `src/util.rs` (line 33-41):
`(c.x * 256.0) as u8`. -/
def set_pixel_channel (c : ℝ) : ℕ := f64_as_u8 (c * 256)

/-- `dotV` distributes over `reflect` as a scaling of the normal component. -/
theorem dot_reflect (v n : Vec3) :
    dotV (reflect v n) n = dotV v n * (1 - 2 * dotV n n) := by
  simp only [reflect, subV, smulV, dotV]
  ring

/-- C6: for every vector `v` and every (unit) normal `n`,
`dot(reflect(reflect(v,n),n), n) = dot(v,n)`: reflection is an involution on
the normal component. -/
theorem C6_reflect_involution_on_normal (v n : Vec3) (h : dotV n n = 1) :
    dotV (reflect (reflect v n) n) n = dotV v n := by
  rw [dot_reflect, dot_reflect, h]
  ring

/-- Witness for C6 at `v = (1,2,3)`, `n = (0,0,1)`. -/
theorem C6_witness :
    dotV ⟨0, 0, 1⟩ ⟨0, 0, 1⟩ = 1 ∧
      dotV (reflect (reflect ⟨1, 2, 3⟩ ⟨0, 0, 1⟩) ⟨0, 0, 1⟩) ⟨0, 0, 1⟩ =
        dotV ⟨1, 2, 3⟩ ⟨0, 0, 1⟩ :=
  ⟨by norm_num [dotV],
    C6_reflect_involution_on_normal ⟨1, 2, 3⟩ ⟨0, 0, 1⟩ (by norm_num [dotV])⟩

/-- C5 (counter-evidence): the source's `near_zero` accepts `(-1, 0, 0)`,
whose first component has absolute value `1 ≥ 1e-8`; the claimed
"all components below 1e-8 in absolute value" characterization is false. -/
theorem C5_near_zero_ignores_sign :
    near_zero ⟨-1, 0, 0⟩ ∧ ¬ (|(-1 : ℝ)| < 1e-8) := by
  constructor
  · refine ⟨by norm_num, by norm_num, by norm_num⟩
  · rw [abs_neg, abs_one]
    norm_num

/-- C8 (counterexample): `unit_vector` on the zero vector does not fail: the
unconditional division goes through and yields a (degenerate) vector — the
zero vector under the real-number convention `x / 0 = 0`, NaN components in
the `f64` original — rather than an explicit error. -/
theorem C8_unit_vector_zero_counterexample :
    unit_vector ⟨0, 0, 0⟩ = ⟨0, 0, 0⟩ := by
  simp [unit_vector, divV, length, length_squared, dotV]

/-- C8 (amended): `unit_vector` performs no defensive zero-length check: for
every vector of length `0` it unconditionally divides by `0` and silently
returns the degenerate result (the zero vector in this real-number model; a
NaN vector in `f64`). -/
theorem C8_unit_vector_no_zero_check (v : Vec3) (h : length v = 0) :
    unit_vector v = ⟨0, 0, 0⟩ := by
  simp [unit_vector, divV, h]

/-- Witness for the amended C8 at the zero vector. -/
theorem C8_witness :
    length ⟨0, 0, 0⟩ = 0 ∧ unit_vector ⟨0, 0, 0⟩ = ⟨0, 0, 0⟩ :=
  ⟨by simp [length, length_squared, dotV],
    C8_unit_vector_no_zero_check ⟨0, 0, 0⟩ (by simp [length, length_squared, dotV])⟩

/-- C9: for every per-channel value `c ∈ [0,1]`, the stored 8-bit channel is
`min(255, trunc(c·256))`; in particular Rust's saturating cast clamps the
`c = 1.0` overflow case to `255`. -/
theorem C9_set_pixel_channel_quantization :
    (∀ c : ℝ, 0 ≤ c → c ≤ 1 → (set_pixel_channel c : ℤ) = min 255 ⌊c * 256⌋) ∧
      set_pixel_channel 1 = 255 := by
  constructor
  · intro c h0 _h1
    have hfl : (0 : ℤ) ≤ ⌊c * 256⌋ := Int.floor_nonneg.mpr (by positivity)
    have hmin : (0 : ℤ) ≤ min 255 ⌊c * 256⌋ := le_min (by norm_num) hfl
    simp [set_pixel_channel, f64_as_u8, Int.toNat_of_nonneg hmin]
  · have h256 : ⌊(1 : ℝ) * 256⌋ = 256 := by norm_num
    simp [set_pixel_channel, f64_as_u8, h256]

/-- Witness for C9 at `c = 1/2`: the channel is `min(255, ⌊128⌋) = 128`. -/
theorem C9_witness :
    (0 : ℝ) ≤ 1 / 2 ∧ (1 / 2 : ℝ) ≤ 1 ∧
      (set_pixel_channel (1 / 2) : ℤ) = min 255 ⌊(1 / 2 : ℝ) * 256⌋ :=
  ⟨by norm_num, by norm_num,
    C9_set_pixel_channel_quantization.1 (1 / 2) (by norm_num) (by norm_num)⟩

/-- `Ray` from `src/ray.rs`: origin and (not necessarily unit) direction. -/
structure Ray where
  origin : Vec3
  direction : Vec3

/-- `Ray::at`: `origin + direction * t`. -/
def Ray.at (r : Ray) (t : ℝ) : Vec3 := addV r.origin (smulV t r.direction)

variable {μ : Type}

/-- `Hit` from `src/hit.rs`: intersection point, oriented normal, ray
parameter, front-face flag and the (opaque, shared) material. -/
structure Hit (μ : Type) where
  p : Vec3
  normal : Vec3
  t : ℝ
  front_face : Prop
  material : μ

/-- `Hit::new_with_front_face` from `src/hit.rs` (lines 16-36):
`front_face = dot(r.direction, outward_normal) < 0`; the stored normal is the
outward normal if `front_face`, else its negation. -/
def Hit.new_with_front_face (p : Vec3) (t : ℝ) (r : Ray) (outward_normal : Vec3)
    (material : μ) : Hit μ :=
  { p := p
    normal :=
      if dotV r.direction outward_normal < 0 then outward_normal
      else negV outward_normal
    t := t
    front_face := dotV r.direction outward_normal < 0
    material := material }

/-- `Sphere` from `src/hit.rs`: center, radius, shared material. -/
structure Sphere (μ : Type) where
  center : Vec3
  radius : ℝ
  material : μ

/-- The `Hit` that `Sphere::hit` constructs once it has settled on the ray
parameter `t` (`src/hit.rs` lines 76-85): `p = r.at(t)`,
`outward_normal = (p - center) / radius`. -/
def Sphere.hitAt (s : Sphere μ) (r : Ray) (t : ℝ) : Hit μ :=
  Hit.new_with_front_face (r.at t) t r (divV (subV (r.at t) s.center) s.radius)
    s.material

/-- `Sphere::hit` from `src/hit.rs` (lines 53-86).  Note the source divides
the first candidate by `a` (`t = (-half_b - sqrtd) / a`) but **not** the
second (`t = -half_b + sqrtd`, line 70) — transcribed faithfully. -/
def Sphere.hit (s : Sphere μ) (r : Ray) (t_min t_max : ℝ) : Option (Hit μ) :=
  let oc := subV r.origin s.center
  let a := length_squared r.direction
  let half_b := dotV oc r.direction
  let c := length_squared oc - s.radius * s.radius
  let discriminant := half_b * half_b - a * c
  if discriminant < 0 then none
  else
    let sqrtd := Real.sqrt discriminant
    let t0 := (-half_b - sqrtd) / a
    if t0 < t_min ∨ t_max < t0 then
      let t1 := -half_b + sqrtd
      if t1 < t_min ∨ t_max < t1 then none
      else some (s.hitAt r t1)
    else some (s.hitAt r t0)

/-- `Sphere::hit` from `src/main.rs` (lines 104-134), the older in-tree
variant: the window test is applied to the *undivided* roots
`root = -half_b ∓ sqrtd` and only the finally chosen root is divided by `a`
(`let t = root / a`, line 128).  `main.rs`'s `Hit` carries no material; the
sphere's tag is carried along unchanged here and is never inspected. -/
def Sphere.hitMain (s : Sphere μ) (r : Ray) (t_min t_max : ℝ) : Option (Hit μ) :=
  let oc := subV r.origin s.center
  let a := length_squared r.direction
  let half_b := dotV oc r.direction
  let c := length_squared oc - s.radius * s.radius
  let discriminant := half_b * half_b - a * c
  if discriminant < 0 then none
  else
    let sqrtd := Real.sqrt discriminant
    let root0 := -half_b - sqrtd
    if root0 < t_min ∨ t_max < root0 then
      let root1 := -half_b + sqrtd
      if root1 < t_min ∨ t_max < root1 then none
      else some (s.hitAt r (root1 / a))
    else some (s.hitAt r (root0 / a))

/-- Loop of `Hittables::hit` (`src/hit.rs` lines 108-121): state is the best
hit so far together with `best_t`, the current upper window bound. -/
def hitLoop (r : Ray) (t_min : ℝ) :
    List (Sphere μ) → Option (Hit μ) → ℝ → Option (Hit μ)
  | [], best, _ => best
  | m :: ms, best, best_t =>
    match m.hit r t_min best_t with
    | some h => hitLoop r t_min ms (some h) h.t
    | none => hitLoop r t_min ms best best_t

/-- `Hittables::hit` from `src/hit.rs` (lines 108-121).  The repository's
only concrete `Hittable` is `Sphere`, so the member collection is a list of
spheres; the vector's insertion order is the list order. -/
def Hittables.hit (ms : List (Sphere μ)) (r : Ray) (t_min t_max : ℝ) :
    Option (Hit μ) :=
  hitLoop r t_min ms none t_max

/-- Modelled from the spec (§4.4): the smaller quadratic root
`t₀ = (-half_b - sqrt(disc)) / a` — what the claim says the code computes.
Used only to compare the code's result against the claimed quotients. -/
def specRoot0 (s : Sphere μ) (r : Ray) : ℝ :=
  let oc := subV r.origin s.center
  let a := length_squared r.direction
  let half_b := dotV oc r.direction
  let c := length_squared oc - s.radius * s.radius
  (-half_b - Real.sqrt (half_b * half_b - a * c)) / a

/-- Modelled from the spec (§4.4): the larger quadratic root
`t₁ = (-half_b + sqrt(disc)) / a`. -/
def specRoot1 (s : Sphere μ) (r : Ray) : ℝ :=
  let oc := subV r.origin s.center
  let a := length_squared r.direction
  let half_b := dotV oc r.direction
  let c := length_squared oc - s.radius * s.radius
  (-half_b + Real.sqrt (half_b * half_b - a * c)) / a

/-- The ray used in the counterexamples: origin at the world origin,
direction `(0,0,1/2)` (deliberately not unit length, `a = |D|² = 1/4`). -/
def cRay : Ray := ⟨⟨0, 0, 0⟩, ⟨0, 0, 1 / 2⟩⟩

/-- A sphere the ray `cRay` first meets at `t = 10`. -/
def s1 : Sphere ℕ := ⟨⟨0, 0, 6⟩, 1, 1⟩

/-- A sphere whose true roots along `cRay` are `t = 16` and `t = 32`. -/
def s2 : Sphere ℕ := ⟨⟨0, 0, 12⟩, 4, 2⟩

theorem sqrt_four : Real.sqrt 4 = 2 := by
  rw [show (4 : ℝ) = 2 ^ 2 by norm_num]
  exact Real.sqrt_sq (by norm_num)

theorem sqrt_quarter : Real.sqrt (1 / 4) = 1 / 2 := by
  rw [show (1 / 4 : ℝ) = (1 / 2) ^ 2 by norm_num]
  exact Real.sqrt_sq (by norm_num)

/-- Evaluation: `s1` against `cRay` over the full window `(0, 100)`. -/
theorem s1_hit_full : Sphere.hit s1 cRay 0 100 = some (Sphere.hitAt s1 cRay 10) := by
  norm_num [Sphere.hit, s1, cRay, subV, dotV, length_squared, sqrt_quarter, sqrt_four]

/-- Evaluation: `s2` against `cRay` over the full window `(0, 100)`:
the first (correctly divided) root `t₀ = 16` is in-window. -/
theorem s2_hit_full : Sphere.hit s2 cRay 0 100 = some (Sphere.hitAt s2 cRay 16) := by
  norm_num [Sphere.hit, s2, cRay, subV, dotV, length_squared, sqrt_four]

/-- Evaluation: `s2` against `cRay` with window `(0, 10)`: `t₀ = 16` is
rejected, and the fallback accepts the undivided second candidate
`-half_b + sqrtd = 8`, which is not a root of the quadratic. -/
theorem s2_hit_shrunk : Sphere.hit s2 cRay 0 10 = some (Sphere.hitAt s2 cRay 8) := by
  norm_num [Sphere.hit, s2, cRay, subV, dotV, length_squared, sqrt_four]

/-- Evaluation: the `main.rs` variant on the same input window-tests the
undivided root `4` (in-window) and then returns `t = 4 / (1/4) = 16`,
outside the window. -/
theorem s2_hitMain_shrunk :
    Sphere.hitMain s2 cRay 0 10 = some (Sphere.hitAt s2 cRay 16) := by
  norm_num [Sphere.hitMain, s2, cRay, subV, dotV, length_squared, sqrt_four]

/-- C1: at sphere `s2` (center `(0,0,12)`, radius `4`), ray `cRay`
(origin `0`, direction `(0,0,1/2)`, so `a = 1/4`) and window `(0, 10)`:
the quadratic roots are `t₀ = 16` and `t₁ = 32`, both out of window, so the
claimed algorithm reports no hit; `src/hit.rs` instead returns a hit with
`t = 8` (the undivided second candidate, equal to neither quotient), and
`src/main.rs` returns a hit with `t = 16`, which is a quotient but lies
outside the window. -/
theorem C1_sphere_root_divergence :
    (∃ h : Hit ℕ, Sphere.hit s2 cRay 0 10 = some h ∧ h.t = 8) ∧
      specRoot0 s2 cRay = 16 ∧ specRoot1 s2 cRay = 32 ∧
      (8 : ℝ) ≠ 16 ∧ (8 : ℝ) ≠ 32 ∧
      (∃ h : Hit ℕ, Sphere.hitMain s2 cRay 0 10 = some h ∧ h.t = 16 ∧ ¬ h.t ≤ 10) := by
  refine ⟨⟨Sphere.hitAt s2 cRay 8, s2_hit_shrunk, rfl⟩, ?_, ?_, by norm_num, by norm_num,
    ⟨Sphere.hitAt s2 cRay 16, s2_hitMain_shrunk, rfl, by
      show ¬ (16 : ℝ) ≤ 10
      norm_num⟩⟩
  · norm_num [specRoot0, s2, cRay, subV, dotV, length_squared, sqrt_four]
  · norm_num [specRoot1, s2, cRay, subV, dotV, length_squared, sqrt_four]

/-- C2: with the scene `[s1, s2]` along `cRay` and window `(0, 100)`, the
members' own intersections over the full window are at `t = 10` (material 1)
and `t = 16` (material 2), yet the aggregate reports `t = 8` with material 2:
neither the closest member intersection nor any member intersection at all. -/
theorem C2_aggregate_not_globally_closest :
    (∃ h : Hit ℕ, Hittables.hit [s1, s2] cRay 0 100 = some h ∧
        h.t = 8 ∧ h.material = 2) ∧
      (∃ h : Hit ℕ, Sphere.hit s1 cRay 0 100 = some h ∧ h.t = 10 ∧ h.material = 1) ∧
      (∃ h : Hit ℕ, Sphere.hit s2 cRay 0 100 = some h ∧ h.t = 16 ∧ h.material = 2) := by
  refine ⟨⟨Sphere.hitAt s2 cRay 8, ?_, rfl, rfl⟩,
    ⟨Sphere.hitAt s1 cRay 10, s1_hit_full, rfl, rfl⟩,
    ⟨Sphere.hitAt s2 cRay 16, s2_hit_full, rfl, rfl⟩⟩
  show hitLoop cRay 0 [s1, s2] none 100 = some (Sphere.hitAt s2 cRay 8)
  rw [hitLoop, s1_hit_full]
  show hitLoop cRay 0 [s2] (some (Sphere.hitAt s1 cRay 10)) 10 = _
  rw [hitLoop, s2_hit_shrunk]
  rfl

/-- C10: the aggregate over an empty member collection reports no hit, for
every ray and window. -/
theorem C10_empty_scene_no_hit (μ : Type) (r : Ray) (t_min t_max : ℝ) :
    Hittables.hit ([] : List (Sphere μ)) r t_min t_max = none := rfl

/-- Two spheres with identical geometry (hit at `t = 1` along `uRay`) but
different material tags. -/
def sAB (m : ℕ) : Sphere ℕ := ⟨⟨0, 0, 2⟩, 1, m⟩

/-- Unit-direction ray through the `sAB` spheres. -/
def uRay : Ray := ⟨⟨0, 0, 0⟩, ⟨0, 0, 1⟩⟩

/-- Evaluation: either `sAB` sphere hits `uRay` at `t = 1` for any window
`(0, t_max)` with `t_max ≥ 1`. -/
theorem sAB_hit (m : ℕ) (t_max : ℝ) (h : 1 ≤ t_max) :
    Sphere.hit (sAB m) uRay 0 t_max = some (Sphere.hitAt (sAB m) uRay 1) := by
  norm_num [Sphere.hit, sAB, uRay, subV, dotV, length_squared, Real.sqrt_one, h,
    not_lt.mpr h]

/-- The discriminant `half_b² - a·c` computed by `Sphere::hit`. -/
def Sphere.discr (s : Sphere μ) (r : Ray) : ℝ :=
  let oc := subV r.origin s.center
  let a := length_squared r.direction
  let half_b := dotV oc r.direction
  let c := length_squared oc - s.radius * s.radius;
  half_b * half_b - a * c

/-- The second candidate parameter the `src/hit.rs` code actually tests:
`-half_b + sqrtd`, *not* divided by `a` (line 70). -/
def Sphere.cand1 (s : Sphere μ) (r : Ray) : ℝ :=
  let oc := subV r.origin s.center
  let a := length_squared r.direction
  let half_b := dotV oc r.direction
  let c := length_squared oc - s.radius * s.radius;
  -half_b + Real.sqrt (half_b * half_b - a * c)

/-- `Sphere.hit` re-expressed through the named candidate values (pure
unfolding of the `let` bindings; definitionally equal). -/
theorem Sphere.hit_def (s : Sphere μ) (r : Ray) (t_min t_max : ℝ) :
    s.hit r t_min t_max =
      if s.discr r < 0 then none
      else if specRoot0 s r < t_min ∨ t_max < specRoot0 s r then
        if s.cand1 r < t_min ∨ t_max < s.cand1 r then none
        else some (s.hitAt r (s.cand1 r))
      else some (s.hitAt r (specRoot0 s r)) := rfl

/-- An upper bound on both candidate parameters `Sphere::hit` can test. -/
def Sphere.candBound (s : Sphere μ) (r : Ray) : ℝ :=
  max (specRoot0 s r) (s.cand1 r)

/-- An upper bound on every candidate parameter any member of the scene can
test along ray `r`. -/
def scene_bound (ms : List (Sphere μ)) (r : Ray) : ℝ :=
  ms.foldr (fun m acc => max (m.candBound r) acc) 0

/-- C7 (counterexample): two members with identical geometry hitting at the
same `t = 1` but different materials: the aggregate reports the material of
whichever member was inserted *last*, so permuting the insertion order
changes the result. -/
theorem C7_order_changes_tie_material :
    Option.map Hit.material (Hittables.hit [sAB 1, sAB 2] uRay 0 100) = some 2 ∧
      Option.map Hit.material (Hittables.hit [sAB 2, sAB 1] uRay 0 100) = some 1 := by
  constructor
  · show Option.map Hit.material (hitLoop uRay 0 [sAB 1, sAB 2] none 100) = some 2
    rw [hitLoop, sAB_hit 1 100 (by norm_num)]
    show Option.map Hit.material
      (hitLoop uRay 0 [sAB 2] (some (Sphere.hitAt (sAB 1) uRay 1)) 1) = some 2
    rw [hitLoop, sAB_hit 2 1 le_rfl]
    rfl
  · show Option.map Hit.material (hitLoop uRay 0 [sAB 2, sAB 1] none 100) = some 1
    rw [hitLoop, sAB_hit 2 100 (by norm_num)]
    show Option.map Hit.material
      (hitLoop uRay 0 [sAB 1] (some (Sphere.hitAt (sAB 2) uRay 1)) 1) = some 1
    rw [hitLoop, sAB_hit 1 1 le_rfl]
    rfl

/-- Modelled from the spec (§4.8): the recursive kernel's source file is not
under `src/` (the in-tree `src/main.rs` holds an older, non-recursive
`ray_color` using the window `(0.0, 100.0)`); the spec's kernel calls
`scene.hit(ray, 0.001, +infinity)`.  This is `Sphere::hit` instantiated at
`t_max = +∞` (`f64::INFINITY`): `t_max < t` is false for every finite `t`,
so that disjunct of each window test is dropped. -/
def Sphere.hitNoUpper (s : Sphere μ) (r : Ray) (t_min : ℝ) : Option (Hit μ) :=
  let oc := subV r.origin s.center
  let a := length_squared r.direction
  let half_b := dotV oc r.direction
  let c := length_squared oc - s.radius * s.radius
  let discriminant := half_b * half_b - a * c
  if discriminant < 0 then none
  else
    let sqrtd := Real.sqrt discriminant
    let t0 := (-half_b - sqrtd) / a
    if t0 < t_min then
      let t1 := -half_b + sqrtd
      if t1 < t_min then none
      else some (s.hitAt r t1)
    else some (s.hitAt r t0)

/-- `Sphere.hitNoUpper` re-expressed through the named candidate values. -/
theorem Sphere.hitNoUpper_def (s : Sphere μ) (r : Ray) (t_min : ℝ) :
    s.hitNoUpper r t_min =
      if s.discr r < 0 then none
      else if specRoot0 s r < t_min then
        if s.cand1 r < t_min then none
        else some (s.hitAt r (s.cand1 r))
      else some (s.hitAt r (specRoot0 s r)) := rfl

/-- Modelled from the spec: the `Hittables::hit` loop started at
`best_t = +∞`.  Until the first hit the state is `none` and members are
tested with no upper bound; from the first hit on, `best_t = h.t` is finite
and the loop proceeds exactly as `hitLoop`. -/
def hitLoopInf (r : Ray) (t_min : ℝ) :
    List (Sphere μ) → Option (Hit μ) → Option (Hit μ)
  | [], best => best
  | m :: ms, none =>
    match m.hitNoUpper r t_min with
    | some h => hitLoopInf r t_min ms (some h)
    | none => hitLoopInf r t_min ms none
  | m :: ms, some b =>
    match m.hit r t_min b.t with
    | some h => hitLoopInf r t_min ms (some h)
    | none => hitLoopInf r t_min ms (some b)

/-- Modelled from the spec: `Hittables::hit` at `t_max = +∞`. -/
def Hittables.hitInf (ms : List (Sphere μ)) (r : Ray) (t_min : ℝ) :
    Option (Hit μ) :=
  hitLoopInf r t_min ms none

/-- Background gradient from `src/main.rs` (lines 177-182): vertical lerp
between white and a bluish tint by the direction's normalized y. -/
def background (r : Ray) : Vec3 :=
  let unit_direction := unit_vector r.direction
  let t := 0.5 * (unit_direction.y + 1);
  addV (smulV (1 - t) ⟨1, 1, 1⟩) (smulV t ⟨0.5, 0.7, 1⟩)

/-- Modelled from the spec (§4.8): the recursive path-tracing kernel
`ray_color(scene, ray, depth)`, whose source file is not under `src/`.
Depth 0 returns black; otherwise the scene is intersected over
`(0.001, +∞)`; on a hit the material scatters (the source's stochastic
`Material::scatter` dispatch is modelled by an explicit function argument
`scatter`, one fixed outcome per call site) and the recursive color is
attenuated componentwise; on a miss the background gradient is returned. -/
def ray_color (scene : List (Sphere μ))
    (scatter : μ → Ray → Hit μ → Option (Vec3 × Ray)) : ℕ → Ray → Vec3
  | 0, _ => ⟨0, 0, 0⟩
  | n + 1, r =>
    match Hittables.hitInf scene r (1 / 1000) with
    | some h =>
      match scatter h.material r h with
      | none => ⟨0, 0, 0⟩
      | some (attenuation, scattered) =>
        component_mult attenuation (ray_color scene scatter n scattered)
    | none => background r

/-- C3: `ray_color` at depth 0 is pure black, for every scene, every
scattering behavior and every ray. -/
theorem C3_depth_zero_black (μ : Type) (scene : List (Sphere μ))
    (scatter : μ → Ray → Hit μ → Option (Vec3 × Ray)) (r : Ray) :
    ray_color scene scatter 0 r = ⟨0, 0, 0⟩ := rfl

/-- A window test whose upper bound dominates the candidate reduces to the
lower-bound test alone. -/
theorem window_test_drop {t T t_min : ℝ} (h : t ≤ T) :
    (t < t_min ∨ T < t) ↔ t < t_min := by
  constructor
  · rintro (h' | h')
    · exact h'
    · exact absurd h' (not_lt.mpr h)
  · exact Or.inl

/-- Once the upper window bound dominates both candidates, `Sphere::hit`
agrees with its `t_max = +∞` instantiation. -/
theorem Sphere.hit_eq_noUpper (s : Sphere μ) (r : Ray) {t_min T : ℝ}
    (hT : s.candBound r ≤ T) : s.hit r t_min T = s.hitNoUpper r t_min := by
  have h0 : specRoot0 s r ≤ T := le_trans (le_max_left _ _) hT
  have h1 : s.cand1 r ≤ T := le_trans (le_max_right _ _) hT
  rw [Sphere.hit_def, Sphere.hitNoUpper_def]
  simp only [window_test_drop h0, window_test_drop h1]

/-- After the first hit, the `+∞`-started loop coincides with the plain
loop (both continue with the finite window `best_t = b.t`). -/
theorem hitLoopInf_some (r : Ray) (t_min : ℝ) :
    ∀ (ms : List (Sphere μ)) (b : Hit μ),
      hitLoopInf r t_min ms (some b) = hitLoop r t_min ms (some b) b.t
  | [], _ => rfl
  | m :: ms, b => by
    simp only [hitLoopInf, hitLoop]
    cases hm : m.hit r t_min b.t with
    | some h => simp only [hitLoopInf_some r t_min ms h]
    | none => simp only [hitLoopInf_some r t_min ms b]

/-- The plain loop started at any upper bound `T` dominating every candidate
of the scene coincides with the `+∞`-started loop. -/
theorem hitLoop_eq_inf (r : Ray) (t_min : ℝ) :
    ∀ (ms : List (Sphere μ)) (T : ℝ), scene_bound ms r ≤ T →
      hitLoop r t_min ms none T = hitLoopInf r t_min ms none
  | [], _, _ => rfl
  | m :: ms, T, hT => by
    have hmb : m.candBound r ≤ T :=
      le_trans (le_max_left _ (scene_bound ms r)) hT
    have hms : scene_bound ms r ≤ T :=
      le_trans (le_max_right (m.candBound r) _) hT
    simp only [hitLoop, hitLoopInf, Sphere.hit_eq_noUpper m r hmb]
    cases hm : m.hitNoUpper r t_min with
    | some h => simp only [hitLoopInf_some r t_min ms h]
    | none => simp only [hitLoop_eq_inf r t_min ms T hms]

/-- `Hittables::hit` with any sufficiently large finite upper bound computes
the `t_max = +∞` result. -/
theorem Hittables.hit_eq_inf (ms : List (Sphere μ)) (r : Ray) {t_min T : ℝ}
    (hT : scene_bound ms r ≤ T) :
    Hittables.hit ms r t_min T = Hittables.hitInf ms r t_min :=
  hitLoop_eq_inf r t_min ms T hT

/-- The dispatch the kernel performs on the result of its scene query: a hit
scatters (or is absorbed to black), a miss falls through to the background. -/
def ray_color_dispatch (scene : List (Sphere μ))
    (scatter : μ → Ray → Hit μ → Option (Vec3 × Ray)) (n : ℕ) (r : Ray) :
    Option (Hit μ) → Vec3
  | some h =>
    match scatter h.material r h with
    | none => ⟨0, 0, 0⟩
    | some (attenuation, scattered) =>
      component_mult attenuation (ray_color scene scatter n scattered)
  | none => background r

/-- C4: with recursion budget left, the kernel dispatches on
`scene.hit(ray, 0.001, T)` for *every* upper bound `T` at least
`scene_bound scene r` — i.e. it tests intersection with lower bound `0.001`
and an unbounded (`+∞`) upper bound. -/
theorem C4_kernel_window (μ : Type) (scene : List (Sphere μ))
    (scatter : μ → Ray → Hit μ → Option (Vec3 × Ray)) (n : ℕ) (r : Ray)
    (T : ℝ) (hT : scene_bound scene r ≤ T) :
    ray_color scene scatter (n + 1) r =
      ray_color_dispatch scene scatter n r (Hittables.hit scene r (1 / 1000) T) := by
  rw [Hittables.hit_eq_inf scene r hT]
  rfl

/-- A scattering behavior that absorbs every ray; used only as a concrete
instantiation in the C4 witness. -/
def absorbAll : ℕ → Ray → Hit ℕ → Option (Vec3 × Ray) := fun _ _ _ => none

/-- Witness for C4 at the one-sphere scene `[sAB 1]`, ray `uRay`,
depth 1 and bound `T = 1000`. -/
theorem C4_witness :
    scene_bound [sAB 1] uRay ≤ 1000 ∧
      ray_color [sAB 1] absorbAll (0 + 1) uRay =
        ray_color_dispatch [sAB 1] absorbAll 0 uRay
          (Hittables.hit [sAB 1] uRay (1 / 1000) 1000) := by
  have hb : scene_bound [sAB 1] uRay ≤ 1000 := by
    norm_num [scene_bound, Sphere.candBound, specRoot0, Sphere.cand1, sAB, uRay,
      subV, dotV, length_squared, Real.sqrt_one]
  exact ⟨hb, C4_kernel_window ℕ [sAB 1] absorbAll 0 uRay 1000 hb⟩

/-- The candidate parameters `Sphere::hit` can test along `r`: none when the
discriminant is negative, otherwise the divided first candidate and the
undivided second candidate, in the order the code tries them. -/
def candList (s : Sphere μ) (r : Ray) : List ℝ :=
  if s.discr r < 0 then [] else [specRoot0 s r, s.cand1 r]

/-- All candidate parameters of a scene, in member order. -/
def candsAll (ms : List (Sphere μ)) (r : Ray) : List ℝ :=
  ms.flatMap fun m => candList m r

/-- The in-window sublist of a candidate list. -/
def windowFilter (t_min t_max : ℝ) (l : List ℝ) : List ℝ :=
  l.filter fun t => decide (t_min ≤ t ∧ t ≤ t_max)

/-- Minimum of two optional reals (`none` = no candidate). -/
def ocomb : Option ℝ → Option ℝ → Option ℝ
  | none, b => b
  | some x, none => some x
  | some x, some y => some (min x y)

/-- Minimum of a list of reals, as an option. -/
def omin : List ℝ → Option ℝ
  | [] => none
  | x :: xs => ocomb (some x) (omin xs)

theorem ocomb_some_assoc (x y : ℝ) (z : Option ℝ) :
    ocomb (some x) (ocomb (some y) z) = ocomb (some (min x y)) z := by
  cases z <;> simp [ocomb, min_assoc]

theorem ocomb_some_comm (x y : ℝ) (z : Option ℝ) :
    ocomb (some x) (ocomb (some y) z) = ocomb (some y) (ocomb (some x) z) := by
  rw [ocomb_some_assoc, ocomb_some_assoc, min_comm]

theorem ocomb_assoc (a : ℝ) (b c : Option ℝ) :
    ocomb (some a) (ocomb b c) = ocomb (ocomb (some a) b) c := by
  cases b <;> cases c <;> simp [ocomb, min_assoc]

theorem omin_append : ∀ l₁ l₂ : List ℝ, omin (l₁ ++ l₂) = ocomb (omin l₁) (omin l₂)
  | [], _ => rfl
  | x :: l₁, l₂ => by
    show ocomb (some x) (omin (l₁ ++ l₂)) = ocomb (ocomb (some x) (omin l₁)) (omin l₂)
    rw [omin_append l₁ l₂, ocomb_assoc]

/-- `omin` is invariant under permutation. -/
theorem omin_perm {l₁ l₂ : List ℝ} (p : l₁.Perm l₂) : omin l₁ = omin l₂ := by
  induction p with
  | nil => rfl
  | cons x _ ih => simp only [omin, ih]
  | swap x y l => simp only [omin, ocomb_some_comm]
  | trans _ _ ih₁ ih₂ => exact ih₁.trans ih₂

/-- The minimum of a list is a member of it. -/
theorem omin_mem : ∀ {l : List ℝ} {v : ℝ}, omin l = some v → v ∈ l
  | [], _, h => by simp [omin] at h
  | x :: xs, v, h => by
    simp only [omin] at h
    cases hx : omin xs with
    | none =>
      rw [hx] at h
      simp only [ocomb] at h
      exact (Option.some_inj.mp h) ▸ List.mem_cons_self x xs
    | some y =>
      rw [hx] at h
      simp only [ocomb, Option.some_inj] at h
      rcases le_total x y with hxy | hxy
      · rw [min_eq_left hxy] at h
        exact h ▸ List.mem_cons_self x xs
      · rw [min_eq_right hxy] at h
        exact List.mem_cons_of_mem x (h ▸ omin_mem hx)

/-- Elements of the window filter lie in the window. -/
theorem mem_windowFilter {t_min t_max t : ℝ} {l : List ℝ}
    (h : t ∈ windowFilter t_min t_max l) : t_min ≤ t ∧ t ≤ t_max := by
  have h' : t ∈ l.filter fun u => decide (t_min ≤ u ∧ u ≤ t_max) := h
  exact of_decide_eq_true (List.mem_filter.mp h').2

/-- The window filter keeps an in-window head. -/
theorem windowFilter_cons_pos {t_min t_max x : ℝ} (S : List ℝ)
    (h : t_min ≤ x ∧ x ≤ t_max) :
    windowFilter t_min t_max (x :: S) = x :: windowFilter t_min t_max S := by
  simp [windowFilter, List.filter_cons, h]

/-- The window filter drops an out-of-window head. -/
theorem windowFilter_cons_neg {t_min t_max x : ℝ} (S : List ℝ)
    (h : ¬ (t_min ≤ x ∧ x ≤ t_max)) :
    windowFilter t_min t_max (x :: S) = windowFilter t_min t_max S := by
  simp [windowFilter, List.filter_cons, h]

/-- Shrinking the window's upper bound from `bt` down to a value `v ≤ bt`
that is already in play does not change the running minimum: the dropped
candidates all exceed `v`. -/
theorem omin_window_shrink :
    ∀ (S : List ℝ) {t_min v bt : ℝ}, v ≤ bt →
      ocomb (some v) (omin (windowFilter t_min bt S)) =
        ocomb (some v) (omin (windowFilter t_min v S))
  | [], _, _, _, _ => rfl
  | x :: S, tmin, v, bt, hv => by
    by_cases h1 : tmin ≤ x ∧ x ≤ v
    · have h2 : tmin ≤ x ∧ x ≤ bt := ⟨h1.1, le_trans h1.2 hv⟩
      rw [windowFilter_cons_pos S h1, windowFilter_cons_pos S h2]
      show ocomb (some v) (ocomb (some x) (omin (windowFilter tmin bt S))) =
        ocomb (some v) (ocomb (some x) (omin (windowFilter tmin v S)))
      rw [ocomb_some_comm, omin_window_shrink S hv, ocomb_some_comm]
    · by_cases h2 : tmin ≤ x ∧ x ≤ bt
      · have hvx : v ≤ x := by
          rcases not_and_or.mp h1 with hc | hc
          · exact absurd h2.1 hc
          · exact le_of_lt (not_le.mp hc)
        rw [windowFilter_cons_pos S h2, windowFilter_cons_neg S h1]
        show ocomb (some v) (ocomb (some x) (omin (windowFilter tmin bt S))) =
          ocomb (some v) (omin (windowFilter tmin v S))
        rw [ocomb_some_assoc, min_eq_left hvx, omin_window_shrink S hv]
      · rw [windowFilter_cons_neg S h2, windowFilter_cons_neg S h1,
          omin_window_shrink S hv]

/-- Projection of the hit the sphere code builds. -/
theorem Sphere.hitAt_t (s : Sphere μ) (r : Ray) (t : ℝ) : (s.hitAt r t).t = t := rfl

/-- The negated window test, in the form the filter uses. -/
theorem window_neg (a t_min w : ℝ) :
    (a < t_min ∨ w < a) ↔ ¬ (t_min ≤ a ∧ a ≤ w) := by
  rw [not_and_or, not_le, not_le]

theorem neg_sub_sqrt_le (hb X : ℝ) : -hb - Real.sqrt X ≤ -hb + Real.sqrt X := by
  have := Real.sqrt_nonneg X
  linarith

/-- For unit-length directions (`a = 1`) the divided first candidate is the
smaller of the two candidates. -/
theorem specRoot0_le_cand1 (s : Sphere μ) (r : Ray)
    (hA : length_squared r.direction = 1) : specRoot0 s r ≤ s.cand1 r := by
  simp only [specRoot0, Sphere.cand1, hA, div_one]
  exact neg_sub_sqrt_le _ _

/-- Characterization of `Sphere::hit` for unit-length directions: it returns
the hit at the minimal in-window candidate, or nothing when no candidate is
in-window. -/
theorem sphere_hit_char (s : Sphere μ) (r : Ray)
    (hA : length_squared r.direction = 1) (t_min w : ℝ) :
    s.hit r t_min w =
      Option.map (s.hitAt r) (omin (windowFilter t_min w (candList s r))) := by
  rw [Sphere.hit_def]
  unfold candList
  by_cases hd : s.discr r < 0
  · simp [hd, windowFilter, omin]
  · have h01 : specRoot0 s r ≤ s.cand1 r := specRoot0_le_cand1 s r hA
    simp only [hd, if_false]
    by_cases h0 : t_min ≤ specRoot0 s r ∧ specRoot0 s r ≤ w
    · have hc0 : ¬ (specRoot0 s r < t_min ∨ w < specRoot0 s r) := by
        rw [not_or, not_lt, not_lt]
        exact ⟨h0.1, h0.2⟩
      rw [if_neg hc0, windowFilter_cons_pos _ h0]
      by_cases h1 : t_min ≤ s.cand1 r ∧ s.cand1 r ≤ w
      · rw [windowFilter_cons_pos _ h1]
        show _ = Option.map (s.hitAt r)
          (ocomb (some (specRoot0 s r))
            (ocomb (some (s.cand1 r)) (omin (windowFilter t_min w []))))
        show _ = Option.map (s.hitAt r)
          (ocomb (some (specRoot0 s r)) (ocomb (some (s.cand1 r)) none))
        show _ = Option.map (s.hitAt r) (some (min (specRoot0 s r) (s.cand1 r)))
        rw [min_eq_left h01]
        rfl
      · rw [windowFilter_cons_neg _ h1]
        rfl
    · have hc0 : specRoot0 s r < t_min ∨ w < specRoot0 s r := by
        rw [window_neg]
        exact h0
      rw [if_pos hc0, windowFilter_cons_neg _ h0]
      by_cases h1 : t_min ≤ s.cand1 r ∧ s.cand1 r ≤ w
      · have hc1 : ¬ (s.cand1 r < t_min ∨ w < s.cand1 r) := by
          rw [not_or, not_lt, not_lt]
          exact ⟨h1.1, h1.2⟩
        rw [if_neg hc1, windowFilter_cons_pos _ h1]
        rfl
      · have hc1 : s.cand1 r < t_min ∨ w < s.cand1 r := by
          rw [window_neg]
          exact h1
        rw [if_pos hc1, windowFilter_cons_neg _ h1]
        rfl

/-- Candidate list of a scene with one more member. -/
theorem candsAll_cons (m : Sphere μ) (ms : List (Sphere μ)) (r : Ray) :
    candsAll (m :: ms) r = candList m r ++ candsAll ms r := by
  simp [candsAll]

/-- The window filter distributes over append. -/
theorem windowFilter_append (t_min t_max : ℝ) (l₁ l₂ : List ℝ) :
    windowFilter t_min t_max (l₁ ++ l₂) =
      windowFilter t_min t_max l₁ ++ windowFilter t_min t_max l₂ := by
  simp [windowFilter, List.filter_append]

/-- Loop characterization, after the first hit: starting from best hit `b`
with window top `b.t`, the final parameter is the minimum of `b.t` and all
remaining in-window candidates. -/
theorem hitLoop_some_char (r : Ray) (t_min : ℝ)
    (hA : length_squared r.direction = 1) :
    ∀ (ms : List (Sphere μ)) (b : Hit μ),
      Option.map Hit.t (hitLoop r t_min ms (some b) b.t) =
        ocomb (some b.t) (omin (windowFilter t_min b.t (candsAll ms r)))
  | [], b => rfl
  | m :: ms, b => by
    simp only [hitLoop]
    rw [sphere_hit_char m r hA t_min b.t]
    cases homin : omin (windowFilter t_min b.t (candList m r)) with
    | none =>
      show Option.map Hit.t (hitLoop r t_min ms (some b) b.t) = _
      rw [hitLoop_some_char r t_min hA ms b, candsAll_cons, windowFilter_append,
        omin_append, homin]
      rfl
    | some v =>
      have hvmem := mem_windowFilter (omin_mem homin)
      have hvb : v ≤ b.t := hvmem.2
      show Option.map Hit.t
        (hitLoop r t_min ms (some (m.hitAt r v)) ((m.hitAt r v).t)) = _
      rw [hitLoop_some_char r t_min hA ms (m.hitAt r v), Sphere.hitAt_t,
        candsAll_cons, windowFilter_append, omin_append, homin, ocomb_some_assoc,
        min_eq_right hvb, omin_window_shrink (candsAll ms r) hvb]

/-- Loop characterization, before any hit: the final parameter is the
minimum in-window candidate over all members (or none). -/
theorem hitLoop_none_char (r : Ray) (t_min : ℝ)
    (hA : length_squared r.direction = 1) :
    ∀ (ms : List (Sphere μ)) (T : ℝ),
      Option.map Hit.t (hitLoop r t_min ms none T) =
        omin (windowFilter t_min T (candsAll ms r))
  | [], _ => rfl
  | m :: ms, T => by
    simp only [hitLoop]
    rw [sphere_hit_char m r hA t_min T]
    cases homin : omin (windowFilter t_min T (candList m r)) with
    | none =>
      show Option.map Hit.t (hitLoop r t_min ms none T) = _
      rw [hitLoop_none_char r t_min hA ms T, candsAll_cons, windowFilter_append,
        omin_append, homin]
      rfl
    | some v =>
      have hvmem := mem_windowFilter (omin_mem homin)
      have hvT : v ≤ T := hvmem.2
      show Option.map Hit.t
        (hitLoop r t_min ms (some (m.hitAt r v)) ((m.hitAt r v).t)) = _
      rw [hitLoop_some_char r t_min hA ms (m.hitAt r v), Sphere.hitAt_t,
        candsAll_cons, windowFilter_append, omin_append, homin,
        omin_window_shrink (candsAll ms r) hvT]

/-- The aggregate's reported parameter, for unit directions: the minimum
in-window candidate over all members. -/
theorem Hittables.hit_t_char (ms : List (Sphere μ)) (r : Ray)
    (hA : length_squared r.direction = 1) (t_min t_max : ℝ) :
    Option.map Hit.t (Hittables.hit ms r t_min t_max) =
      omin (windowFilter t_min t_max (candsAll ms r)) :=
  hitLoop_none_char r t_min hA ms t_max

/-- C7 (amended): for unit-length ray directions, permuting the member
insertion order never changes whether the aggregate reports a hit, nor the
parametric distance `t` of the reported hit.  (Which *member* is reported at
a tie does depend on order — see the counterexample.) -/
theorem C7_perm_invariant_t (μ : Type) (ms₁ ms₂ : List (Sphere μ)) (r : Ray)
    (t_min t_max : ℝ) (hA : length_squared r.direction = 1)
    (hp : ms₁.Perm ms₂) :
    Option.map Hit.t (Hittables.hit ms₁ r t_min t_max) =
      Option.map Hit.t (Hittables.hit ms₂ r t_min t_max) := by
  rw [Hittables.hit_t_char ms₁ r hA t_min t_max,
    Hittables.hit_t_char ms₂ r hA t_min t_max]
  exact omin_perm ((hp.flatMap_right _).filter _)

/-- Witness for the amended C7 at the two tied spheres and `uRay`. -/
theorem C7_witness :
    length_squared uRay.direction = 1 ∧ ([sAB 1, sAB 2].Perm [sAB 2, sAB 1]) ∧
      Option.map Hit.t (Hittables.hit [sAB 1, sAB 2] uRay 0 100) =
        Option.map Hit.t (Hittables.hit [sAB 2, sAB 1] uRay 0 100) := by
  have hA : length_squared uRay.direction = 1 := by
    norm_num [uRay, length_squared, dotV]
  have hp : ([sAB 1, sAB 2].Perm [sAB 2, sAB 1]) := List.Perm.swap _ _ _
  exact ⟨hA, hp, C7_perm_invariant_t ℕ _ _ uRay 0 100 hA hp⟩

end

end Tracer
